import Mathlib

/-!
Verification development for the `mgc` permutation-testing package.

The Python sources embedded here are:
* `mgc/independence/base.py` — the shared permutation-test runner
  (`IndependenceTest.test`, `IndependenceTest._perm_stat`);
* `mgc/ksample/base.py` — the k-sample runner (textually the same
  p-value / null-distribution pipeline applied to the transformed pair);
* `mgc/independence/hhg.py` — the `_hhg` statistic kernel;
* `mgc/independence/hsic.py` — the kernel test delegating to `Dcorr`.

Machine reals are modelled by `ℚ`; the process-global NumPy random
generator is modelled by an explicit stream of row permutations that is
consumed sequentially, two draws per permutation trial.
-/

open Finset

namespace Mgc

/-- A sample matrix of shape `(n, p)`: `n` observations with `p` features. -/
def DataMat (n p : ℕ) : Type := Fin n → Fin p → ℚ

/-- A pairwise (distance or kernel) matrix of shape `(n, n)`. -/
def Mat (n : ℕ) : Type := Fin n → Fin n → ℚ

/-- Model of `np.random.permutation(x)`: permute the rows of a sample matrix. -/
def permuteRows {n p : ℕ} (π : Equiv.Perm (Fin n)) (x : DataMat n p) : DataMat n p :=
  fun i => x (π i)

/-- The process-global random generator, modelled as the stream of row
permutations it hands out; `draws c` is the permutation returned by the
`c`-th call to `np.random.permutation`. -/
structure RNG (n : ℕ) where
  draws : ℕ → Equiv.Perm (Fin n)

/-- Embedding of `IndependenceTest._perm_stat` (base.py lines 44–66): draw a fresh row
permutation for `x` and another for `y` from the global generator, and
recompute the statistic on the permuted pair.  Returns the permuted
statistic together with the advanced generator cursor. -/
def permStat {n p q : ℕ} (statistic : DataMat n p → DataMat n q → ℚ)
    (x : DataMat n p) (y : DataMat n q) (rng : RNG n) (cursor : ℕ) : ℚ × ℕ :=
  let permx := permuteRows (rng.draws cursor) x
  let permy := permuteRows (rng.draws (cursor + 1)) y
  (statistic permx permy, cursor + 2)

/-- The null-distribution loop of `IndependenceTest.test` (base.py line 99):
`reps` sequential invocations of `_perm_stat`, each consuming its own two
fresh draws from the global generator. -/
def nullDistFrom {n p q : ℕ} (statistic : DataMat n p → DataMat n q → ℚ)
    (x : DataMat n p) (y : DataMat n q) (rng : RNG n) : ℕ → ℕ → List ℚ
  | _, 0 => []
  | cursor, reps + 1 =>
      (permStat statistic x y rng cursor).1 ::
        nullDistFrom statistic x y rng (cursor + 2) reps

/-- The p-value computation of `IndependenceTest.test` (base.py lines
103–108): the fraction of null-distribution entries `≥ stat`, with the
zero-correction `pvalue = 1 / reps` when that fraction is exactly `0`. -/
def pvalueCalc (null_dist : List ℚ) (stat : ℚ) (reps : ℕ) : ℚ :=
  if ((null_dist.filter fun v => stat ≤ v).length : ℚ) / (reps : ℚ) = 0 then 1 / (reps : ℚ)
  else ((null_dist.filter fun v => stat ≤ v).length : ℚ) / (reps : ℚ)

/-- The attributes a test object stores across a `test` call (`self.stat`,
`self.pvalue`, `self.null_dist`); `none` models a Python attribute that has
not been assigned. -/
structure IndepState where
  stat : Option ℚ
  pvalue : Option ℚ
  null_dist : Option (List ℚ)
deriving DecidableEq

/-- Embedding of `IndependenceTest.__init__`: `self.stat = None; self.pvalue = None`;
no `null_dist` attribute exists yet. -/
def initState : IndepState := ⟨none, none, none⟩

/-- Embedding of `IndependenceTest.test` (base.py lines 91–111): compute the observed
statistic, build the null distribution by `reps` permutation trials, store
it, derive the corrected p-value, store it, and return `(stat, pvalue)`.
The `workers` argument only selects the worker pool and does not affect
the computed values. -/
def baseTest {n p q : ℕ} (statistic : DataMat n p → DataMat n q → ℚ)
    (x : DataMat n p) (y : DataMat n q) (rng : RNG n) (reps : ℕ) (workers : ℤ)
    (s : IndepState) : (ℚ × ℚ) × IndepState :=
  let stat := statistic x y
  let null_dist := nullDistFrom statistic x y rng 0 reps
  let pvalue := pvalueCalc null_dist stat reps
  ((stat, pvalue), ⟨s.stat, some pvalue, some null_dist⟩)

/-- Embedding of `KSampleTest.test` (ksample/base.py lines 92–112): after the k-sample
transform has produced the pair `(u, v)`, the pipeline is the same
null-distribution and p-value code as the independence runner. -/
def ksampleTest {n p q : ℕ} (statistic : DataMat n p → DataMat n q → ℚ)
    (u : DataMat n p) (v : DataMat n q) (rng : RNG n) (reps : ℕ) (workers : ℤ)
    (s : IndepState) : (ℚ × ℚ) × IndepState :=
  let obs_stat := statistic u v
  let null_dist := nullDistFrom statistic u v rng 0 reps
  let pvalue := pvalueCalc null_dist obs_stat reps
  ((obs_stat, pvalue), ⟨s.stat, some pvalue, some null_dist⟩)

/-- The generator positions trial `t` consumes: one draw to permute `x`
and one to permute `y`. -/
def trialDraws (t : ℕ) : Finset ℕ := {2 * t, 2 * t + 1}

/-! ## The HHG statistic kernel (`_hhg`, hhg.py lines 198–223) -/

/-- Cell count `t11 = np.sum(a * b) - 2` where `a = distx[i,:] <= distx[i,j]`
and `b = disty[i,:] <= disty[i,j]`. -/
def hhgT11 {n : ℕ} (distx disty : Mat n) (i j : Fin n) : ℤ :=
  ((univ.filter fun k => distx i k ≤ distx i j ∧ disty i k ≤ disty i j).card : ℤ) - 2

/-- Cell count `t12 = np.sum(a * (1 - b))`. -/
def hhgT12 {n : ℕ} (distx disty : Mat n) (i j : Fin n) : ℤ :=
  ((univ.filter fun k => distx i k ≤ distx i j ∧ ¬ disty i k ≤ disty i j).card : ℤ)

/-- Cell count `t21 = np.sum((1 - a) * b)`. -/
def hhgT21 {n : ℕ} (distx disty : Mat n) (i j : Fin n) : ℤ :=
  ((univ.filter fun k => ¬ distx i k ≤ distx i j ∧ disty i k ≤ disty i j).card : ℤ)

/-- Cell count `t22 = np.sum((1 - a) * (1 - b))`. -/
def hhgT22 {n : ℕ} (distx disty : Mat n) (i j : Fin n) : ℤ :=
  ((univ.filter fun k => ¬ distx i k ≤ distx i j ∧ ¬ disty i k ≤ disty i j).card : ℤ)

/-- Denominator `denom = (t11+t12) * (t21+t22) * (t11+t21) * (t12+t22)` (hhg.py line 217). -/
def hhgDenom {n : ℕ} (distx disty : Mat n) (i j : Fin n) : ℤ :=
  (hhgT11 distx disty i j + hhgT12 distx disty i j) *
    (hhgT21 distx disty i j + hhgT22 distx disty i j) *
    (hhgT11 distx disty i j + hhgT21 distx disty i j) *
    (hhgT12 distx disty i j + hhgT22 distx disty i j)

/-- The entry `S[i, j]` of `_hhg`: zero on the diagonal (the loop skips
`i == j`), and zero unless `denom > 0` (hhg.py line 218). -/
def hhgS {n : ℕ} (distx disty : Mat n) (i j : Fin n) : ℚ :=
  if i = j then 0
  else if 0 < hhgDenom distx disty i j then
    (((n : ℚ) - 2) *
        ((hhgT12 distx disty i j * hhgT21 distx disty i j -
            hhgT11 distx disty i j * hhgT22 distx disty i j : ℤ) : ℚ) ^ 2) /
      ((hhgDenom distx disty i j : ℤ) : ℚ)
  else 0

/-- Embedding of `_hhg` (hhg.py lines 198–223): `stat = np.sum(S)`. -/
def hhgStat {n : ℕ} (distx disty : Mat n) : ℚ := ∑ i, ∑ j, hhgS distx disty i j

/-- C2 spec-side contribution, following the claim's words: the same four
cell counts, with `S(i, j)` defined as `0` exactly when the denominator is
`0` (rather than the code's `denom > 0` guard). -/
def hhgSpecS {n : ℕ} (distx disty : Mat n) (i j : Fin n) : ℚ :=
  if hhgDenom distx disty i j = 0 then 0
  else (((n : ℚ) - 2) *
        ((hhgT12 distx disty i j * hhgT21 distx disty i j -
            hhgT11 distx disty i j * hhgT22 distx disty i j : ℤ) : ℚ) ^ 2) /
      ((hhgDenom distx disty i j : ℤ) : ℚ)

/-- C2 spec-side statistic: the sum of `S(i, j)` over all ordered pairs
`(i, j)` with `i ≠ j`. -/
def hhgSpecStat {n : ℕ} (distx disty : Mat n) : ℚ :=
  ∑ i, ∑ j, if i = j then 0 else hhgSpecS distx disty i j

/-- Applying a permutation simultaneously to the rows and the columns of a
pairwise matrix. -/
def permMat {n : ℕ} (π : Equiv.Perm (Fin n)) (d : Mat n) : Mat n :=
  fun i j => d (π i) (π j)

/-! ## The kernel test (`Hsic`, hsic.py) and its modelled `Dcorr` delegate -/

/-- A pluggable metric/kernel function: for each feature dimension `p` it
maps an `(n, p)` sample matrix to its `n × n` pairwise matrix. -/
def Metric (n : ℕ) : Type := (p : ℕ) → DataMat n p → Mat n

/-- Modelled from the spec: the `Dcorr` source file is not under `src/`.
Spec §4.4 U-centering: `C_ij = D_ij − rowsum_i/(n−2) − colsum_j/(n−2) +
totalsum/((n−1)(n−2))` off the diagonal, and `C_ii = 0`. -/
def uCenter {n : ℕ} (D : Mat n) : Mat n := fun i j =>
  if i = j then 0
  else D i j - (∑ t, D i t) / ((n : ℚ) - 2) - (∑ s, D s j) / ((n : ℚ) - 2)
    + (∑ s, ∑ t, D s t) / (((n : ℚ) - 1) * ((n : ℚ) - 2))

/-- Modelled from the spec: the `Dcorr` source file is not under `src/`.
Spec §4.4 unbiased trace statistic `U(x, y) = trace(Cx · Cy) / (n (n−3))`.
(The spec's normalized variant divides this by a square-root factor built
from the same pipeline; the delegation property verified here is
independent of that choice.) -/
def traceStat {n : ℕ} (Dx Dy : Mat n) : ℚ :=
  (∑ i, ∑ j, uCenter Dx i j * uCenter Dy j i) / ((n : ℚ) * ((n : ℚ) - 3))

/-- Modelled from the spec: the `Dcorr` statistic on raw samples — build
both pairwise matrices with the injected metric (or kernel), then apply the
trace statistic. -/
def dcorrStatistic {n : ℕ} (metric : Metric n) {p q : ℕ}
    (x : DataMat n p) (y : DataMat n q) : ℚ :=
  traceStat (metric p x) (metric q y)

/-- The test of a freshly constructed `Dcorr(compute_distance=metric)`
instance: the shared base runner (base.py `IndependenceTest.test`) with the
`Dcorr` statistic; its state starts at `__init__`'s defaults. -/
def dcorrTest {n p q : ℕ} (metric : Metric n) (x : DataMat n p) (y : DataMat n q)
    (rng : RNG n) (reps : ℕ) (workers : ℤ) : (ℚ × ℚ) × IndepState :=
  baseTest (dcorrStatistic metric) x y rng reps workers initState

/-- The attributes of an `Hsic` object: `Hsic.__init__` (hsic.py lines
95–99) sets `stat` and `pvalue` to `None` and stores the kernel; note that
no `null_dist` attribute is ever created on the object. -/
structure HsicObj (n : ℕ) where
  compute_kernel : Metric n
  stat : Option ℚ
  pvalue : Option ℚ
  null_dist : Option (List ℚ)

/-- Embedding of `Hsic.__init__` (hsic.py lines 95–99). -/
def hsicInit {n : ℕ} (k : Metric n) : HsicObj n := ⟨k, none, none, none⟩

/-- Embedding of `Hsic.test` (hsic.py lines 186–193): instantiate `Dcorr` with the
kernel in place of the distance metric, run its full test, store `stat`
and `pvalue` on the `Hsic` object, and return the pair.  The local `Dcorr`
instance (and with it the null distribution it stored) is discarded. -/
def hsicTest {n p q : ℕ} (s : HsicObj n) (x : DataMat n p) (y : DataMat n q)
    (rng : RNG n) (reps : ℕ) (workers : ℤ) : (ℚ × ℚ) × HsicObj n :=
  let r := dcorrTest s.compute_kernel x y rng reps workers
  (r.1, ⟨s.compute_kernel, some r.1.1, some r.1.2, s.null_dist⟩)

/-- Embedding of `Hsic._statistic` (hsic.py lines 101–124): runs a full `dcorr.test(x, y)`
with that method's defaults (`reps = 1000`, `workers = -1`) and keeps only
the statistic, storing it in `self.stat`. -/
def hsicStatistic {n p q : ℕ} (s : HsicObj n) (x : DataMat n p) (y : DataMat n q)
    (rng : RNG n) : ℚ × HsicObj n :=
  let r := dcorrTest s.compute_kernel x y rng 1000 (-1)
  (r.1.1, ⟨s.compute_kernel, some r.1.1, s.pvalue, s.null_dist⟩)

/-! ## Input validation (modelled) -/

/-- Modelled from the spec: the `_CheckInputs` / `check_xy_distmat`
collaborators live in `mgc/_utils.py` and `mgc/independence/_utils.py`,
which are not under `src/`.  These are the facts about a raw input pair
that spec §7's error taxonomy inspects. -/
structure RawInput where
  xIsNumericArray : Bool
  yIsNumericArray : Bool
  xRows : ℕ
  yRows : ℕ
  xHasNaN : Bool
  yHasNaN : Bool
deriving DecidableEq

/-- Modelled from the spec: the parameters spec §7 validates. -/
structure RawParams where
  reps : ℤ
  repsIsInteger : Bool
  metricRequired : Bool
  metricIsCallable : Bool
deriving DecidableEq

/-- Spec §7 error taxonomy (fatal cases). -/
inductive ValidationError where
  | invalidInput
  | invalidParameter
  | invalidMetric
deriving DecidableEq

/-- Modelled from the spec (§7): the synchronous validation performed
before any statistic computation or parallel dispatch. -/
def checkInputs (inp : RawInput) (par : RawParams) : Except ValidationError Unit :=
  if ¬ inp.xIsNumericArray ∨ ¬ inp.yIsNumericArray then .error .invalidInput
  else if inp.xRows ≠ inp.yRows then .error .invalidInput
  else if inp.xRows < 3 then .error .invalidInput
  else if inp.xHasNaN ∨ inp.yHasNaN then .error .invalidInput
  else if par.reps ≤ 0 ∨ ¬ par.repsIsInteger then .error .invalidParameter
  else if par.metricRequired ∧ ¬ par.metricIsCallable then .error .invalidMetric
  else .ok ()

/-- The shape of `HHG.test` (hhg.py lines 186–195): validate first and only
on success run the permutation pipeline; `run` stands for the whole
dispatched computation (observed statistic, trials, p-value). -/
def testChecked (inp : RawInput) (par : RawParams)
    (run : Unit → (ℚ × ℚ) × List ℚ) : Except ValidationError ((ℚ × ℚ) × List ℚ) :=
  match checkInputs inp par with
  | .error e => .error e
  | .ok _ => .ok (run ())

/-! ## Keyword-argument semantics of `KSampleTest.__init__` -/

/-- The Python keyword arguments relevant to test construction. -/
inductive Kwarg where
  | compute_distance
  | compute_kernel
deriving DecidableEq

/-- The five independence-test classes named in `KSampleTest`'s docstring
and `dist_tests` (ksample/base.py lines 18, 37). -/
inductive IndepTestKind where
  | Dcorr
  | HHG
  | Hsic
  | CCA
  | RV
deriving DecidableEq

/-- The keyword parameters each constructor accepts, read off the source
signatures: `HHG.__init__(self, compute_distance=euclidean)` (hhg.py line
87); `Hsic.__init__(self, compute_kernel=rbf_kernel)` (hsic.py line 95) —
`compute_kernel` only; `Dcorr` accepts `compute_distance` (it is invoked
as `Dcorr(compute_distance=...)` in hsic.py line 188); `CCA` and `RV` are
only ever constructed without keywords. -/
def acceptedKwargs : IndepTestKind → List Kwarg
  | .Dcorr => [.compute_distance]
  | .HHG => [.compute_distance]
  | .Hsic => [.compute_kernel]
  | .CCA => []
  | .RV => []

/-- Python raises `TypeError` on an unexpected keyword argument. -/
inductive PyError where
  | typeError
deriving DecidableEq

/-- Python call semantics for `indep_test(**kwargs)`: the call succeeds only
when every passed keyword is accepted by the callee's signature. -/
def callInitWith (kind : IndepTestKind) (passed : List Kwarg) :
    Except PyError IndepTestKind :=
  if passed.all fun k => (acceptedKwargs kind).contains k then .ok kind
  else .error .typeError

/-- The `dist_tests` list of `KSampleTest.__init__` (ksample/base.py line 37). -/
def distTests : List IndepTestKind := [.Dcorr, .HHG, .Hsic]

/-- Embedding of `KSampleTest.__init__` (ksample/base.py lines 31–43): a class in
`dist_tests` is instantiated with the keyword argument `compute_distance`;
any other class with no arguments. -/
def ksampleInit (indep_test : IndepTestKind) : Except PyError IndepTestKind :=
  if distTests.contains indep_test then
    callInitWith indep_test [.compute_distance]
  else
    callInitWith indep_test []

/-! ## Lemmas -/

lemma length_nullDistFrom {n p q : ℕ} (statistic : DataMat n p → DataMat n q → ℚ)
    (x : DataMat n p) (y : DataMat n q) (rng : RNG n) :
    ∀ (reps cursor : ℕ), (nullDistFrom statistic x y rng cursor reps).length = reps := by
  intro reps
  induction reps with
  | zero => intro cursor; rfl
  | succ r ih =>
      intro cursor
      simp [nullDistFrom, ih]

lemma nullDistFrom_eq_map {n p q : ℕ} (statistic : DataMat n p → DataMat n q → ℚ)
    (x : DataMat n p) (y : DataMat n q) (rng : RNG n) :
    ∀ (reps cursor : ℕ),
      nullDistFrom statistic x y rng cursor reps =
        (List.range reps).map fun t =>
          statistic (permuteRows (rng.draws (cursor + 2 * t)) x)
            (permuteRows (rng.draws (cursor + 2 * t + 1)) y) := by
  intro reps
  induction reps with
  | zero => intro cursor; rfl
  | succ r ih =>
      intro cursor
      rw [List.range_succ_eq_map]
      simp only [List.map_cons, List.map_map]
      rw [nullDistFrom]
      congr 1
      rw [ih (cursor + 2)]
      apply List.map_congr_left
      intro t _
      have h1 : cursor + 2 + 2 * t = cursor + 2 * (t + 1) := by ring
      have h2 : cursor + 2 + 2 * t + 1 = cursor + 2 * (t + 1) + 1 := by ring
      simp only [Function.comp_apply, h1, h2]

/-! ### Counting lemmas for the contingency-table cells -/

lemma card_filter_and_split {n : ℕ} (P Q : Fin n → Prop)
    [DecidablePred P] [DecidablePred Q] :
    (univ.filter fun k => P k ∧ Q k).card + (univ.filter fun k => P k ∧ ¬ Q k).card
      = (univ.filter P).card := by
  rw [← Finset.filter_filter, ← Finset.filter_filter]
  exact Finset.filter_card_add_filter_neg_card_eq_card Q

lemma hhgT11_add_hhgT12 {n : ℕ} (distx disty : Mat n) (i j : Fin n) :
    hhgT11 distx disty i j + hhgT12 distx disty i j
      = ((univ.filter fun k => distx i k ≤ distx i j).card : ℤ) - 2 := by
  unfold hhgT11 hhgT12
  rw [sub_add_eq_add_sub]
  congr 1
  exact_mod_cast card_filter_and_split (fun k => distx i k ≤ distx i j)
    (fun k => disty i k ≤ disty i j)

lemma hhgT11_add_hhgT21 {n : ℕ} (distx disty : Mat n) (i j : Fin n) :
    hhgT11 distx disty i j + hhgT21 distx disty i j
      = ((univ.filter fun k => disty i k ≤ disty i j).card : ℤ) - 2 := by
  unfold hhgT11 hhgT21
  rw [sub_add_eq_add_sub]
  congr 1
  have h := card_filter_and_split (fun k => disty i k ≤ disty i j)
    (fun k => distx i k ≤ distx i j)
  have h1 : (univ.filter fun k => disty i k ≤ disty i j ∧ distx i k ≤ distx i j)
      = (univ.filter fun k => distx i k ≤ distx i j ∧ disty i k ≤ disty i j) := by
    ext k; simp [and_comm]
  have h2 : (univ.filter fun k => disty i k ≤ disty i j ∧ ¬ distx i k ≤ distx i j)
      = (univ.filter fun k => ¬ distx i k ≤ distx i j ∧ disty i k ≤ disty i j) := by
    ext k; simp [and_comm]
  rw [h1, h2] at h
  exact_mod_cast h

lemma hhgT21_add_hhgT22 {n : ℕ} (distx disty : Mat n) (i j : Fin n) :
    hhgT21 distx disty i j + hhgT22 distx disty i j
      = ((univ.filter fun k => ¬ distx i k ≤ distx i j).card : ℤ) := by
  unfold hhgT21 hhgT22
  exact_mod_cast card_filter_and_split (fun k => ¬ distx i k ≤ distx i j)
    (fun k => disty i k ≤ disty i j)

lemma hhgT12_add_hhgT22 {n : ℕ} (distx disty : Mat n) (i j : Fin n) :
    hhgT12 distx disty i j + hhgT22 distx disty i j
      = ((univ.filter fun k => ¬ disty i k ≤ disty i j).card : ℤ) := by
  unfold hhgT12 hhgT22
  have h := card_filter_and_split (fun k => ¬ disty i k ≤ disty i j)
    (fun k => distx i k ≤ distx i j)
  have h1 : (univ.filter fun k => ¬ disty i k ≤ disty i j ∧ distx i k ≤ distx i j)
      = (univ.filter fun k => distx i k ≤ distx i j ∧ ¬ disty i k ≤ disty i j) := by
    ext k; simp [and_comm]
  have h2 : (univ.filter fun k => ¬ disty i k ≤ disty i j ∧ ¬ distx i k ≤ distx i j)
      = (univ.filter fun k => ¬ distx i k ≤ distx i j ∧ ¬ disty i k ≤ disty i j) := by
    ext k; simp [and_comm]
  rw [h1, h2] at h
  exact_mod_cast h

lemma two_le_card_closeball {n : ℕ} (d : Mat n) (i j : Fin n) (hij : i ≠ j)
    (hdiag : d i i = 0) (hnn : 0 ≤ d i j) :
    2 ≤ (univ.filter fun k => d i k ≤ d i j).card := by
  have hsub : ({i, j} : Finset (Fin n)) ⊆ univ.filter fun k => d i k ≤ d i j := by
    intro k hk
    simp only [Finset.mem_insert, Finset.mem_singleton] at hk
    rcases hk with rfl | rfl
    · simp only [Finset.mem_filter, Finset.mem_univ, true_and, hdiag]
      exact hnn
    · simp
  calc 2 = ({i, j} : Finset (Fin n)).card := (Finset.card_pair hij).symm
    _ ≤ _ := Finset.card_le_card hsub

/-- For genuine distance matrices (zero diagonal, nonnegative entries) every
factor of the contingency denominator is nonnegative, hence so is the
product. -/
lemma hhgDenom_nonneg {n : ℕ} (distx disty : Mat n) (i j : Fin n) (hij : i ≠ j)
    (hxdiag : distx i i = 0) (hxnn : 0 ≤ distx i j)
    (hydiag : disty i i = 0) (hynn : 0 ≤ disty i j) :
    0 ≤ hhgDenom distx disty i j := by
  have h1 : 0 ≤ hhgT11 distx disty i j + hhgT12 distx disty i j := by
    rw [hhgT11_add_hhgT12]
    have h := two_le_card_closeball distx i j hij hxdiag hxnn
    have : (2 : ℤ) ≤ ((univ.filter fun k => distx i k ≤ distx i j).card : ℤ) := by
      exact_mod_cast h
    linarith
  have h2 : 0 ≤ hhgT21 distx disty i j + hhgT22 distx disty i j := by
    rw [hhgT21_add_hhgT22]
    exact Int.natCast_nonneg _
  have h3 : 0 ≤ hhgT11 distx disty i j + hhgT21 distx disty i j := by
    rw [hhgT11_add_hhgT21]
    have h := two_le_card_closeball disty i j hij hydiag hynn
    have : (2 : ℤ) ≤ ((univ.filter fun k => disty i k ≤ disty i j).card : ℤ) := by
      exact_mod_cast h
    linarith
  have h4 : 0 ≤ hhgT12 distx disty i j + hhgT22 distx disty i j := by
    rw [hhgT12_add_hhgT22]
    exact Int.natCast_nonneg _
  exact mul_nonneg (mul_nonneg (mul_nonneg h1 h2) h3) h4

/-! ### Symmetry of the `_hhg` kernel in its two arguments -/

lemma hhgT11_swap {n : ℕ} (dx dy : Mat n) (i j : Fin n) :
    hhgT11 dy dx i j = hhgT11 dx dy i j := by
  unfold hhgT11
  have h : (univ.filter fun k => dy i k ≤ dy i j ∧ dx i k ≤ dx i j)
      = (univ.filter fun k => dx i k ≤ dx i j ∧ dy i k ≤ dy i j) := by
    ext k; simp [and_comm]
  rw [h]

lemma hhgT12_swap {n : ℕ} (dx dy : Mat n) (i j : Fin n) :
    hhgT12 dy dx i j = hhgT21 dx dy i j := by
  unfold hhgT12 hhgT21
  have h : (univ.filter fun k => dy i k ≤ dy i j ∧ ¬ dx i k ≤ dx i j)
      = (univ.filter fun k => ¬ dx i k ≤ dx i j ∧ dy i k ≤ dy i j) := by
    ext k; simp [and_comm]
  rw [h]

lemma hhgT21_swap {n : ℕ} (dx dy : Mat n) (i j : Fin n) :
    hhgT21 dy dx i j = hhgT12 dx dy i j := by
  unfold hhgT12 hhgT21
  have h : (univ.filter fun k => ¬ dy i k ≤ dy i j ∧ dx i k ≤ dx i j)
      = (univ.filter fun k => dx i k ≤ dx i j ∧ ¬ dy i k ≤ dy i j) := by
    ext k; simp [and_comm]
  rw [h]

lemma hhgT22_swap {n : ℕ} (dx dy : Mat n) (i j : Fin n) :
    hhgT22 dy dx i j = hhgT22 dx dy i j := by
  unfold hhgT22
  have h : (univ.filter fun k => ¬ dy i k ≤ dy i j ∧ ¬ dx i k ≤ dx i j)
      = (univ.filter fun k => ¬ dx i k ≤ dx i j ∧ ¬ dy i k ≤ dy i j) := by
    ext k; simp [and_comm]
  rw [h]

lemma hhgDenom_swap {n : ℕ} (dx dy : Mat n) (i j : Fin n) :
    hhgDenom dy dx i j = hhgDenom dx dy i j := by
  unfold hhgDenom
  rw [hhgT11_swap dx dy, hhgT12_swap dx dy, hhgT21_swap dx dy, hhgT22_swap dx dy]
  ring

lemma hhgS_swap {n : ℕ} (dx dy : Mat n) (i j : Fin n) :
    hhgS dx dy i j = hhgS dy dx i j := by
  unfold hhgS
  rw [hhgDenom_swap dx dy, hhgT11_swap dx dy, hhgT12_swap dx dy, hhgT21_swap dx dy,
    hhgT22_swap dx dy, mul_comm (hhgT21 dx dy i j) (hhgT12 dx dy i j)]

/-! ### Relabelling invariance of the `_hhg` kernel -/

lemma card_filter_comp_perm {n : ℕ} (π : Equiv.Perm (Fin n)) (P : Fin n → Prop)
    [DecidablePred P] :
    (univ.filter fun k => P (π k)).card = (univ.filter P).card := by
  have h : (univ.filter fun k => P (π k)) = (univ.filter P).map π.symm.toEmbedding := by
    ext k
    simp only [Finset.mem_filter, Finset.mem_univ, true_and, Finset.mem_map,
      Equiv.coe_toEmbedding, Equiv.symm_apply_eq]
    constructor
    · intro hk; exact ⟨π k, hk, rfl⟩
    · rintro ⟨a, ha, rfl⟩; exact ha
  rw [h, Finset.card_map]

lemma hhgT11_perm {n : ℕ} (π : Equiv.Perm (Fin n)) (dx dy : Mat n) (i j : Fin n) :
    hhgT11 (permMat π dx) (permMat π dy) i j = hhgT11 dx dy (π i) (π j) := by
  unfold hhgT11 permMat
  exact congrArg (fun m : ℕ => (m : ℤ) - 2)
    (card_filter_comp_perm π fun m => dx (π i) m ≤ dx (π i) (π j) ∧ dy (π i) m ≤ dy (π i) (π j))

lemma hhgT12_perm {n : ℕ} (π : Equiv.Perm (Fin n)) (dx dy : Mat n) (i j : Fin n) :
    hhgT12 (permMat π dx) (permMat π dy) i j = hhgT12 dx dy (π i) (π j) := by
  unfold hhgT12 permMat
  exact congrArg (fun m : ℕ => (m : ℤ))
    (card_filter_comp_perm π fun m => dx (π i) m ≤ dx (π i) (π j) ∧ ¬ dy (π i) m ≤ dy (π i) (π j))

lemma hhgT21_perm {n : ℕ} (π : Equiv.Perm (Fin n)) (dx dy : Mat n) (i j : Fin n) :
    hhgT21 (permMat π dx) (permMat π dy) i j = hhgT21 dx dy (π i) (π j) := by
  unfold hhgT21 permMat
  exact congrArg (fun m : ℕ => (m : ℤ))
    (card_filter_comp_perm π fun m => ¬ dx (π i) m ≤ dx (π i) (π j) ∧ dy (π i) m ≤ dy (π i) (π j))

lemma hhgT22_perm {n : ℕ} (π : Equiv.Perm (Fin n)) (dx dy : Mat n) (i j : Fin n) :
    hhgT22 (permMat π dx) (permMat π dy) i j = hhgT22 dx dy (π i) (π j) := by
  unfold hhgT22 permMat
  exact congrArg (fun m : ℕ => (m : ℤ))
    (card_filter_comp_perm π fun m => ¬ dx (π i) m ≤ dx (π i) (π j) ∧ ¬ dy (π i) m ≤ dy (π i) (π j))

lemma hhgDenom_perm {n : ℕ} (π : Equiv.Perm (Fin n)) (dx dy : Mat n) (i j : Fin n) :
    hhgDenom (permMat π dx) (permMat π dy) i j = hhgDenom dx dy (π i) (π j) := by
  unfold hhgDenom
  rw [hhgT11_perm, hhgT12_perm, hhgT21_perm, hhgT22_perm]

lemma hhgS_perm {n : ℕ} (π : Equiv.Perm (Fin n)) (dx dy : Mat n) (i j : Fin n) :
    hhgS (permMat π dx) (permMat π dy) i j = hhgS dx dy (π i) (π j) := by
  unfold hhgS
  rw [hhgT11_perm, hhgT12_perm, hhgT21_perm, hhgT22_perm, hhgDenom_perm]
  simp only [EmbeddingLike.apply_eq_iff_eq]

lemma pvalueCalc_bounds (nd : List ℚ) (st : ℚ) (reps : ℕ) (hreps : 1 ≤ reps)
    (hlen : nd.length = reps) :
    1 / (reps : ℚ) ≤ pvalueCalc nd st reps ∧ pvalueCalc nd st reps ≤ 1 ∧
      pvalueCalc nd st reps ≠ 0 := by
  have hrpos : (0 : ℚ) < (reps : ℚ) := by
    have : 0 < reps := hreps
    exact_mod_cast this
  have hcnt : (nd.filter fun v => st ≤ v).length ≤ reps :=
    hlen ▸ List.length_filter_le _ _
  unfold pvalueCalc
  by_cases h : ((nd.filter fun v => st ≤ v).length : ℚ) / (reps : ℚ) = 0
  · rw [if_pos h]
    refine ⟨le_refl _, ?_, ?_⟩
    · rw [div_le_one hrpos]
      exact_mod_cast hreps
    · exact one_div_ne_zero (ne_of_gt hrpos)
  · rw [if_neg h]
    have hcnt1 : 1 ≤ (nd.filter fun v => st ≤ v).length := by
      by_contra hc
      push_neg at hc
      have hz : (nd.filter fun v => st ≤ v).length = 0 := by omega
      apply h
      rw [hz]
      simp
    refine ⟨?_, ?_, h⟩
    · rw [div_le_div_iff_of_pos_right hrpos]
      exact_mod_cast hcnt1
    · rw [div_le_one hrpos]
      exact_mod_cast hcnt

/-! ## Claim theorems -/

/-- C1: for every run of `test(x, y, reps, workers)` with `reps ≥ 1`, the
returned p-value is the fraction of null-distribution entries `≥` the
observed statistic, except that an exactly-zero fraction is replaced by
`1 / reps`; consequently the p-value lies in `[1/reps, 1]` and is never
`0`.  The k-sample runner computes the p-value by the same code, as the
last conjunct records. -/
theorem pvalue_formula_and_range {n p q : ℕ} (statistic : DataMat n p → DataMat n q → ℚ)
    (x : DataMat n p) (y : DataMat n q) (rng : RNG n) (reps : ℕ) (workers : ℤ)
    (s : IndepState) (hreps : 1 ≤ reps) :
    ((baseTest statistic x y rng reps workers s).1.2 =
      if (((nullDistFrom statistic x y rng 0 reps).filter
            fun v => statistic x y ≤ v).length : ℚ) / (reps : ℚ) = 0 then 1 / (reps : ℚ)
      else (((nullDistFrom statistic x y rng 0 reps).filter
            fun v => statistic x y ≤ v).length : ℚ) / (reps : ℚ)) ∧
    1 / (reps : ℚ) ≤ (baseTest statistic x y rng reps workers s).1.2 ∧
    (baseTest statistic x y rng reps workers s).1.2 ≤ 1 ∧
    (baseTest statistic x y rng reps workers s).1.2 ≠ 0 ∧
    ksampleTest statistic x y rng reps workers s = baseTest statistic x y rng reps workers s := by
  have hb := pvalueCalc_bounds (nullDistFrom statistic x y rng 0 reps) (statistic x y) reps
    hreps (length_nullDistFrom statistic x y rng reps 0)
  exact ⟨rfl, hb.1, hb.2.1, hb.2.2, rfl⟩

theorem pvalue_formula_and_range_witness :
    1 ≤ 1 ∧
    (1 / ((1 : ℕ) : ℚ) ≤
      (baseTest (fun _ _ => (0 : ℚ)) (fun _ _ => (0 : ℚ) : DataMat 1 1)
        (fun _ _ => (0 : ℚ) : DataMat 1 1) ⟨fun _ => Equiv.refl (Fin 1)⟩ 1 (-1) initState).1.2) :=
  ⟨le_refl 1,
    (pvalue_formula_and_range (fun _ _ => (0 : ℚ)) (fun _ _ => (0 : ℚ) : DataMat 1 1)
      (fun _ _ => (0 : ℚ) : DataMat 1 1) ⟨fun _ => Equiv.refl (Fin 1)⟩ 1 (-1) initState
      (le_refl 1)).2.1⟩

/-- C2: for distance matrices (symmetric, nonnegative, zero diagonal) the
`_hhg` statistic equals the spec's sum over all ordered pairs `i ≠ j` of
the chi-squared contribution, with `S(i, j) = 0` exactly when the
denominator is `0`.  (The code's guard is `denom > 0`; for genuine distance
matrices the denominator is never negative, so the two guards agree.) -/
theorem hhg_stat_matches_spec_formula {n : ℕ} (distx disty : Mat n)
    (hxsym : ∀ i j, distx i j = distx j i) (hysym : ∀ i j, disty i j = disty j i)
    (hxdiag : ∀ i, distx i i = 0) (hydiag : ∀ i, disty i i = 0)
    (hxnn : ∀ i j, 0 ≤ distx i j) (hynn : ∀ i j, 0 ≤ disty i j) :
    hhgStat distx disty = hhgSpecStat distx disty := by
  unfold hhgStat hhgSpecStat
  refine Finset.sum_congr rfl fun i _ => Finset.sum_congr rfl fun j _ => ?_
  by_cases hij : i = j
  · subst hij
    simp [hhgS]
  · have hd := hhgDenom_nonneg distx disty i j hij (hxdiag i) (hxnn i j) (hydiag i) (hynn i j)
    rw [if_neg hij]
    unfold hhgS hhgSpecS
    rw [if_neg hij]
    rcases eq_or_lt_of_le hd with hzero | hpos
    · rw [if_neg (by rw [← hzero]; exact lt_irrefl 0), if_pos hzero.symm]
    · rw [if_pos hpos, if_neg (ne_of_gt hpos)]

theorem hhg_stat_matches_spec_formula_witness :
    (∀ i : Fin 3, (fun i j : Fin 3 => if i = j then (0 : ℚ) else 1) i i = 0) ∧
    hhgStat (fun i j : Fin 3 => if i = j then (0 : ℚ) else 1)
        (fun i j : Fin 3 => if i = j then (0 : ℚ) else 1) =
      hhgSpecStat (fun i j : Fin 3 => if i = j then (0 : ℚ) else 1)
        (fun i j : Fin 3 => if i = j then (0 : ℚ) else 1) :=
  ⟨by decide,
    hhg_stat_matches_spec_formula
      (fun i j : Fin 3 => if i = j then (0 : ℚ) else 1)
      (fun i j : Fin 3 => if i = j then (0 : ℚ) else 1)
      (by decide) (by decide) (by decide) (by decide) (by decide) (by decide)⟩

/-- C3: trial `t` of the null-distribution loop recomputes the statistic on
a freshly drawn pair of permutations — the generator's draws number `2t`
(for `x`) and `2t + 1` (for `y`) — and distinct trials consume disjoint
draws, so no fixed permutation set is reused across trials. -/
theorem perm_trials_use_fresh_draws {n p q : ℕ} (statistic : DataMat n p → DataMat n q → ℚ)
    (x : DataMat n p) (y : DataMat n q) (rng : RNG n) (reps : ℕ) :
    (nullDistFrom statistic x y rng 0 reps =
      (List.range reps).map fun t =>
        statistic (permuteRows (rng.draws (2 * t)) x)
          (permuteRows (rng.draws (2 * t + 1)) y)) ∧
    (∀ t, (permStat statistic x y rng (2 * t)).1 =
      statistic (permuteRows (rng.draws (2 * t)) x)
        (permuteRows (rng.draws (2 * t + 1)) y)) ∧
    ∀ a b : ℕ, a ≠ b → Disjoint (trialDraws a) (trialDraws b) := by
  refine ⟨?_, fun t => rfl, ?_⟩
  · have h := nullDistFrom_eq_map statistic x y rng reps 0
    simpa using h
  · intro a b hab
    simp only [trialDraws, Finset.disjoint_left, Finset.mem_insert, Finset.mem_singleton]
    rintro k (rfl | rfl) hk <;> rcases hk with h | h <;> omega

theorem perm_trials_use_fresh_draws_witness :
    (0 : ℕ) ≠ 1 ∧ Disjoint (trialDraws 0) (trialDraws 1) :=
  ⟨by decide,
    (perm_trials_use_fresh_draws (fun _ _ => (0 : ℚ)) (fun _ _ => (0 : ℚ) : DataMat 1 1)
      (fun _ _ => (0 : ℚ) : DataMat 1 1) ⟨fun _ => Equiv.refl (Fin 1)⟩ 1).2.2 0 1 (by decide)⟩

/-- C4: `Hsic.test` returns exactly the `(stat, pvalue)` pair produced by
the `Dcorr` test instantiated with the Hsic kernel in place of the distance
metric, and that delegate is the unchanged base pipeline (statistic,
permutation trials and p-value). -/
theorem hsic_test_delegates_to_dcorr {n p q : ℕ} (s : HsicObj n) (x : DataMat n p)
    (y : DataMat n q) (rng : RNG n) (reps : ℕ) (workers : ℤ) :
    (hsicTest s x y rng reps workers).1 =
      (dcorrTest s.compute_kernel x y rng reps workers).1 ∧
    dcorrTest s.compute_kernel x y rng reps workers =
      baseTest (dcorrStatistic s.compute_kernel) x y rng reps workers initState ∧
    (hsicTest s x y rng reps workers).2.stat =
      some (dcorrTest s.compute_kernel x y rng reps workers).1.1 ∧
    (hsicTest s x y rng reps workers).2.pvalue =
      some (dcorrTest s.compute_kernel x y rng reps workers).1.2 :=
  ⟨rfl, rfl, rfl, rfl⟩

/-- C5 counterexample: after a successful `Hsic().test(...)` call the Hsic
object has no `null_dist` attribute — `Hsic.test` stores only `stat` and
`pvalue`, and the internal `Dcorr` instance holding the null distribution
is discarded.  So the null distribution is not available as a side-stored
artifact on every independence test object, contrary to the claim. -/
theorem hsic_null_dist_not_stored_cx :
    (hsicTest (hsicInit fun _ _ => fun _ _ => (0 : ℚ)) (fun _ _ => (0 : ℚ) : DataMat 1 1)
        (fun _ _ => (0 : ℚ) : DataMat 1 1) ⟨fun _ => Equiv.refl (Fin 1)⟩ 1 (-1)).2.null_dist =
      none := rfl

/-- C5 amended: every `test` run returns the `(stat, pvalue)` pair; tests
that use the inherited base runner store the full null distribution (and
the p-value) on the test object, but `Hsic.test` leaves the object's
`null_dist` exactly as it was before the call (absent on a fresh object) —
the trials' null distribution lives only on the discarded internal `Dcorr`
instance. -/
theorem test_returns_pair_and_storage {n p q : ℕ} (statistic : DataMat n p → DataMat n q → ℚ)
    (x : DataMat n p) (y : DataMat n q) (rng : RNG n) (reps : ℕ) (workers : ℤ)
    (s : IndepState) :
    (baseTest statistic x y rng reps workers s).1 =
      (statistic x y,
        pvalueCalc (nullDistFrom statistic x y rng 0 reps) (statistic x y) reps) ∧
    (baseTest statistic x y rng reps workers s).2.null_dist =
      some (nullDistFrom statistic x y rng 0 reps) ∧
    (baseTest statistic x y rng reps workers s).2.pvalue =
      some (pvalueCalc (nullDistFrom statistic x y rng 0 reps) (statistic x y) reps) ∧
    ∀ (m pp qq : ℕ) (hs : HsicObj m) (x' : DataMat m pp) (y' : DataMat m qq)
      (rng' : RNG m) (reps' : ℕ) (workers' : ℤ),
      (hsicTest hs x' y' rng' reps' workers').2.null_dist = hs.null_dist :=
  ⟨rfl, rfl, rfl, fun _ _ _ _ _ _ _ _ _ => rfl⟩

/-- C6: the null distribution stored by a run of the permutation pipeline
has exactly `reps` entries, in both the independence and k-sample runners. -/
theorem null_dist_length_eq_reps {n p q : ℕ} (statistic : DataMat n p → DataMat n q → ℚ)
    (x : DataMat n p) (y : DataMat n q) (rng : RNG n) (reps : ℕ) (workers : ℤ)
    (s : IndepState) (hreps : 1 ≤ reps) :
    (baseTest statistic x y rng reps workers s).2.null_dist =
      some (nullDistFrom statistic x y rng 0 reps) ∧
    (ksampleTest statistic x y rng reps workers s).2.null_dist =
      some (nullDistFrom statistic x y rng 0 reps) ∧
    (nullDistFrom statistic x y rng 0 reps).length = reps :=
  ⟨rfl, rfl, length_nullDistFrom statistic x y rng reps 0⟩

theorem null_dist_length_eq_reps_witness :
    1 ≤ 1 ∧
    (nullDistFrom (fun _ _ => (0 : ℚ)) (fun _ _ => (0 : ℚ) : DataMat 1 1)
      (fun _ _ => (0 : ℚ) : DataMat 1 1) ⟨fun _ => Equiv.refl (Fin 1)⟩ 0 1).length = 1 :=
  ⟨le_refl 1,
    (null_dist_length_eq_reps (fun _ _ => (0 : ℚ)) (fun _ _ => (0 : ℚ) : DataMat 1 1)
      (fun _ _ => (0 : ℚ) : DataMat 1 1) ⟨fun _ => Equiv.refl (Fin 1)⟩ 1 (-1) initState
      (le_refl 1)).2.2⟩

/-- C7: the `_hhg` statistic is symmetric in its two distance-matrix
arguments (the contingency table transposes, leaving each `S(i, j)`
unchanged). -/
theorem hhg_symmetric {n : ℕ} (distx disty : Mat n)
    (hxsym : ∀ i j, distx i j = distx j i) (hysym : ∀ i j, disty i j = disty j i) :
    hhgStat distx disty = hhgStat disty distx := by
  unfold hhgStat
  exact Finset.sum_congr rfl fun i _ => Finset.sum_congr rfl fun j _ => hhgS_swap distx disty i j

theorem hhg_symmetric_witness :
    (∀ i j : Fin 3, (fun i j : Fin 3 => if i = j then (0 : ℚ) else 1) i j =
      (fun i j : Fin 3 => if i = j then (0 : ℚ) else 1) j i) ∧
    hhgStat (fun i j : Fin 3 => if i = j then (0 : ℚ) else 1)
        (fun i j : Fin 3 => if i = j then (0 : ℚ) else 2) =
      hhgStat (fun i j : Fin 3 => if i = j then (0 : ℚ) else 2)
        (fun i j : Fin 3 => if i = j then (0 : ℚ) else 1) :=
  ⟨by decide,
    hhg_symmetric (fun i j : Fin 3 => if i = j then (0 : ℚ) else 1)
      (fun i j : Fin 3 => if i = j then (0 : ℚ) else 2) (by decide) (by decide)⟩

/-- C8: permuting the rows and columns of both distance matrices by the same
permutation (i.e. relabelling the paired samples together) leaves the
observed `_hhg` statistic unchanged. -/
theorem hhg_perm_invariant {n : ℕ} (π : Equiv.Perm (Fin n)) (distx disty : Mat n) :
    hhgStat (permMat π distx) (permMat π disty) = hhgStat distx disty := by
  unfold hhgStat
  calc ∑ i, ∑ j, hhgS (permMat π distx) (permMat π disty) i j
      = ∑ i, ∑ j, hhgS distx disty (π i) (π j) :=
        Finset.sum_congr rfl fun i _ =>
          Finset.sum_congr rfl fun j _ => hhgS_perm π distx disty i j
    _ = ∑ i, ∑ j, hhgS distx disty (π i) j :=
        Finset.sum_congr rfl fun i _ => Equiv.sum_comp π fun j => hhgS distx disty (π i) j
    _ = ∑ i, ∑ j, hhgS distx disty i j :=
        Equiv.sum_comp π fun i => ∑ j, hhgS distx disty i j

/-- C9: whenever the (modelled) input validation rejects the input — wrong
type, row mismatch, too few samples, NaN, bad `reps`, non-callable metric —
the test surfaces that error with no partial result: the outcome carries no
statistic, p-value or null distribution, and is independent of the
permutation pipeline, which therefore was never dispatched. -/
theorem validation_blocks_pipeline (inp : RawInput) (par : RawParams) (e : ValidationError)
    (h : checkInputs inp par = .error e) :
    ∀ run₁ run₂ : Unit → (ℚ × ℚ) × List ℚ,
      testChecked inp par run₁ = .error e ∧
      testChecked inp par run₁ = testChecked inp par run₂ := by
  intro run₁ run₂
  unfold testChecked
  rw [h]
  exact ⟨rfl, rfl⟩

theorem validation_blocks_pipeline_witness :
    checkInputs ⟨true, true, 5, 4, false, false⟩ ⟨1000, true, true, true⟩ =
      .error .invalidInput ∧
    testChecked ⟨true, true, 5, 4, false, false⟩ ⟨1000, true, true, true⟩
      (fun _ => ((0, 0), [])) = .error .invalidInput :=
  ⟨rfl,
    (validation_blocks_pipeline ⟨true, true, 5, 4, false, false⟩ ⟨1000, true, true, true⟩
      .invalidInput rfl (fun _ => ((0, 0), [])) (fun _ => ((1, 1), [1]))).1⟩

/-- C10: `KSampleTest.__init__` instantiates any member of its distance-test
list with the keyword argument `compute_distance`, but `Hsic.__init__`
accepts only `compute_kernel`, so constructing a k-sample test around
`Hsic` raises `TypeError` before any test can run. -/
theorem ksample_hsic_init_type_error :
    ksampleInit IndepTestKind.Hsic = Except.error PyError.typeError ∧
    ksampleInit IndepTestKind.HHG = Except.ok IndepTestKind.HHG :=
  ⟨rfl, rfl⟩

end Mgc
